import Mathlib

/-!
# Verification of the idiom path evaluator and the `Bi` index key

A shallow embedding of `Value::get` from `crates/core/src/expr/value/get.rs`
and of the `Bi` index key from `crates/core/src/key/index/bi.rs`, together
with proofs settling the specification claims about them.

The evaluator `get` is a suspension-capable, possibly non-terminating driver
(it re-enters itself with the same path after materializing `Refs`, `Future`
and `Edges` values), so the embedding is fuel-indexed: `get env fuel …`
performs at most `fuel` re-entries and signals exhaustion with the
model-artifact outcome `Flow.outOfFuel`.  All collaborators of the evaluator
(the expression evaluator, the record fetcher, the future evaluator, the
method dispatcher, …, see spec §6) are fields of an `Env` record, so every
theorem quantifies over their behaviour unless it instantiates them.
-/

namespace Surreal

/-- The value model (`Value` in `expr/value`): the variants that the `get`
evaluator in `get.rs` distinguishes.  `thing tb id` models `Thing { tb, id }`
with the `Id` payload itself represented as a `Value` (primitive, object or
array); `geometry`, `edges`, `future` and `refs` carry opaque handles that the
collaborators in `Env` interpret.  All variants that `get.rs` treats through
its final catch-all arm (numbers, strands, ranges, …) are kept as separate
scalar constructors so that the catch-all is visible in the model. -/
inductive Value where
  | none
  | null
  | bool (b : Bool)
  | number (n : Int)
  | strand (s : String)
  | range (r : Nat)
  | array (xs : List Value)
  | object (o : List (String × Value))
  | thing (tb : String) (id : Value)
  | geometry (g : Nat)
  | edges (e : Nat)
  | future (e : Nat)
  | refs (r : Nat)

/-- The error taxonomy of `get.rs` (`Error` variants raised or inspected by
the evaluator; every other collaborator error is `other`). -/
inductive GError where
  | computationDepthExceeded
  | unsupportedRepeatRecurse
  | recursionInstructionPlanConflict
  | recursionMinimumNotReached
  | invalidFunction
  | other (code : Nat)
deriving DecidableEq

/-- `ControlFlow`: the non-`Ok` outcome of a `FlowResult`.  `ret` is the
`ControlFlow::Return` sentinel, `brk`/`cont` the loop sentinels, `err` a real
error.  `outOfFuel` is a model artifact marking fuel exhaustion of the
embedding (the source program would still be running). -/
inductive Flow where
  | err (e : GError)
  | ret (v : Value)
  | brk
  | cont
  | outOfFuel

/-- `FlowResult<T>`. -/
abbrev Res (α : Type) : Type := Except Flow α

/-- `FlowResultExt::catch_return`: a `ControlFlow::Return(v)` becomes `Ok(v)`,
everything else is unchanged. -/
def catchReturn : Res Value → Res Value
  | .error (.ret v) => .ok v
  | r => r

/-- The slice of `Options` that `get.rs` observes: the futures flag
(`Options::new_with_futures`). -/
structure Options where
  futures : Bool
deriving DecidableEq

/-- `Options::new_with_futures`. -/
def withFutures (o : Options) (b : Bool) : Options := { o with futures := b }

/-- `CursorDoc`: the current document (`doc` field) together with its record
id (`rid`), which the `Doc` path part reads.  `CursorDoc::from(value)` has no
record id. -/
structure Cursor where
  rid : Option (String × Value)
  doc : Value

/-- The path-step model (`Part`): one constructor per variant dispatched by
`get.rs`.  Expressions (`Part::Value`, `Part::Where` conditions, method
arguments, graph payloads, geometry payloads) are opaque handles interpreted
by the collaborators in `Env`.  `recurse` carries the bounds `(min, max)`
directly (the `Recurse → (min, max)` conversion of the source is not under
`src/`; modelled as already-converted bounds), an optional inner path and an
optional instruction handle.  `destructure` carries the field name and the
sub-idiom of every destructuring entry. -/
inductive Part where
  | field (f : String)
  | index (i : Nat)
  | all
  | first
  | last
  | flatten
  | whereCond (w : Nat)
  | value (x : Nat)
  | graph (g : Nat)
  | method (name : String) (args : List Nat)
  | destructure (spec : List (String × List Part))
  | optional
  | doc
  | recurse (mn : Nat) (mx : Option Nat) (inner : Option (List Part)) (instr : Option Nat)
  | repeatRecurse

/-- The recursion context built by the `Part::Recurse` arm of `get.rs`
(`Recursion { min, max, iterated, current, path, plan, instruction }`). -/
structure RecCtx where
  mn : Nat
  mx : Option Nat
  iterated : Nat
  current : Value
  path : List Part
  plan : Option Part
  instruction : Option Nat

/-- The collaborators of the evaluator (spec §6), plus the depth budget.
`computeExpr`/`computeFuture`/`computeRefs`/`computeIdiom` model the
`compute` contracts; `invokeMethod` models `fnc::idiom` (a plain
`Result<Value, Error>`); `callFunction` models computing an anonymous
function built from an object field; `fetchRecord`/`fetchGraph`/`fetchEdges`
model the synthesized `SELECT` statements of the `Thing` and `Edges` arms,
already post-processed with `.first()`/`.all()`; `truthy` models
`Value::is_truthy`; `rangeSlice` models `Range::slice`; `thingRaw` models
`Thing::to_raw`; the `geo*` fields model the `Geometry` accessors; and
`reduceStep` is the pluggable plan/instruction reducer of the recursion
engine (spec §4.2). -/
structure Env where
  maxDepth : Nat
  computeExpr : Nat → Options → Option Cursor → Res Value
  computeFuture : Nat → Options → Option Cursor → Res Value
  computeRefs : Nat → Options → Option Cursor → Res Value
  invokeMethod : String → Value → List Value → Options → Option Cursor → Except GError Value
  callFunction : Value → List Value → Options → Option Cursor → Res Value
  computeIdiom : List Part → Cursor → Res Value
  fetchEdges : Nat → Options → Res Value
  fetchRecord : String → Value → Options → Res Value
  fetchGraph : Nat → Bool → String → Value → Options → Res Value
  rangeSlice : Nat → List Value → Option (List Value)
  thingRaw : String → Value → String
  geoType : Nat → String
  geoIsGeometry : Nat → Bool
  geoIsCollection : Nat → Bool
  geoCoordinates : Nat → Value
  geoObject : Nat → List (String × Value)
  truthy : Value → Bool
  reduceStep : Option Part → Option Nat → Value → Value → Nat → Value

/-- `Object::get`: field lookup (first match in the association list). -/
def lookupObj (o : List (String × Value)) (k : String) : Option Value :=
  (o.find? (fun p => p.1 == k)).map (fun p => p.2)

/-- `Object::values` (the `Part::All` arm on objects). -/
def objValues (o : List (String × Value)) : List Value :=
  o.map (fun p => p.2)

/-- `Object::rid`: the object's latent record id, i.e. its `id` field when
that field is a `Thing`.  Modelled from the spec: "promote the object's own
latent record id to `Thing`; if absent, replace with `None`" (`Object::rid`
is not under `src/`). -/
def objRid (o : List (String × Value)) : Option (String × Value) :=
  match lookupObj o "id" with
  | some (.thing tb idv) => some (tb, idv)
  | _ => Option.none

/-- `Value::flatten`.  Modelled from the spec (§4.3): flatten one level of a
top-level array, splicing array elements and keeping the rest
(`Value::flatten` is not under `src/`). -/
def flattenValue : Value → Value
  | .array xs =>
    .array (xs.flatMap (fun v => match v with | .array ys => ys | w => [w]))
  | v => v

/-- `NextMethod::next_method`.  Modelled from the spec: "advance to the next
`Method` or end" — the suffix starting at the first `Part::Method`, or the
empty path (the trait implementation is not under `src/`). -/
def nextMethod : List Part → List Part
  | [] => []
  | .method n a :: rest => .method n a :: rest
  | _ :: rest => nextMethod rest

/-- `SplitByRepeatRecurse::split_by_repeat_recurse`.  Modelled from the spec:
"lift one root-level `RepeatRecurse`" — split the path around its first
root-level `Part::RepeatRecurse`, if any (the trait implementation is not
under `src/`). -/
def splitByRepeatRecurse : List Part → Option (List Part × List Part)
  | [] => Option.none
  | .repeatRecurse :: rest => some ([], rest)
  | p :: rest =>
    match splitByRepeatRecurse rest with
    | some (pre, post) => some (p :: pre, post)
    | Option.none => Option.none

/-- Whether a part carries a nested `RepeatRecurse` and hence yields a
recursion plan.  Modelled from the spec: a plan is "a nested
`RepeatRecurse`-bearing sub-shape lifted from the path", i.e. a destructure
one of whose sub-idioms contains the repeat symbol. -/
def partBearsPlan : Part → Bool
  | .destructure spec =>
    spec.any (fun fp => fp.2.any (fun q => match q with | .repeatRecurse => true | _ => false))
  | _ => false

/-- `FindRecursionPlan::find_recursion_plan`.  Modelled from the spec:
"locate exactly one nested `RepeatRecurse` and return the surrounding plan" —
the first plan-bearing part together with the path before and after it (the
trait implementation is not under `src/`). -/
def findRecursionPlan : List Part → Option (List Part × Part × List Part)
  | [] => Option.none
  | p :: rest =>
    if partBearsPlan p then some ([], p, rest)
    else
      match findRecursionPlan rest with
      | some (pre, pl, post) => some (p :: pre, pl, post)
      | Option.none => Option.none

/-- Sequential error-propagating map, the embedding of
`try_join_all(_buffered)` used for array descents and method arguments
(concurrent in the source, but joined in element order). -/
def mapRes (f : α → Res β) : List α → Res (List β)
  | [] => .ok []
  | x :: xs =>
    match f x with
    | .error e => .error e
    | .ok y =>
      match mapRes f xs with
      | .error e => .error e
      | .ok ys => .ok (y :: ys)

/-- The sequential filtering loop of the `Part::Where` arm on arrays: compute
the condition with the element as the cursor document, `catch_return` it, and
keep the element when the result is truthy. -/
def whereKeep (env : Env) (opt : Options) (w : Nat) : List Value → Res (List Value)
  | [] => .ok []
  | x :: xs =>
    match catchReturn (env.computeExpr w opt (some ⟨Option.none, x⟩)) with
    | .error f => .error f
    | .ok c =>
      match whereKeep env opt w xs with
      | .error f => .error f
      | .ok ks => .ok (if env.truthy c then x :: ks else ks)

/-- The field loop of the `Part::Destructure` arm on objects: evaluate every
entry's sub-idiom against the object as cursor document. -/
def destructureFields (env : Env) (cur : Cursor) :
    List (String × List Part) → Res (List (String × Value))
  | [] => .ok []
  | (f, idm) :: rest =>
    match env.computeIdiom idm cur with
    | .error e => .error e
    | .ok v =>
      match destructureFields env cur rest with
      | .error e => .error e
      | .ok fs => .ok ((f, v) :: fs)

/-- The `Part::Method` arm on objects (lines 267–314 of `get.rs`): invoke the
dispatcher; on `InvalidFunction`, if a field of that name exists re-interpret
it as an anonymous function over the computed arguments; a nested
`InvalidFunction` becomes `None`; otherwise propagate. -/
def objectMethod (env : Env) (opt : Options) (doc : Option Cursor)
    (o : List (String × Value)) (name : String) (argv : List Value) : Res Value :=
  match env.invokeMethod name (.object o) argv opt doc with
  | .ok v => .ok v
  | .error e =>
    match e with
    | .invalidFunction =>
      match lookupObj o name with
      | some f =>
        match catchReturn (env.callFunction f argv opt doc) with
        | .ok v => .ok v
        | .error (.err .invalidFunction) => .ok .none
        | .error fl => .error fl
      | Option.none => .error (.err .invalidFunction)
    | e => .error (.err e)

/-- Whether a step's result ends the recursion engine's iteration.  Modelled
from the spec (§4.2): "a step yields an empty/`None` result". -/
def recFinal : Value → Bool
  | .none => true
  | .array [] => true
  | _ => false

/-- The recursion engine `compute_idiom_recursion`.  Modelled from the spec
(§4.2, the module is not under `src/`): iterate one traversal of `path` from
`current` until the maximum is reached (succeed with the accumulation), a
step yields an empty/`None` result before `min` (fail with
`RecursionMinimumNotReached`) or at/after `min` (succeed with the
accumulation).  The plan/instruction reducer is the pluggable `Env.reduceStep`
contract; without plan and instruction the step result simply becomes the
next current value. -/
def recurseEngine (env : Env) (g : Value → List Part → Res Value) :
    Nat → RecCtx → Res Value
  | 0, _ => .error .outOfFuel
  | fuel + 1, r =>
    if r.mx = some r.iterated then .ok r.current
    else
      match g r.current r.path with
      | .error f => .error f
      | .ok step =>
        if recFinal step then
          if r.iterated < r.mn then .error (.err .recursionMinimumNotReached)
          else .ok r.current
        else
          let next :=
            match r.plan, r.instruction with
            | Option.none, Option.none => step
            | pl, ins => env.reduceStep pl ins r.current step r.iterated
          recurseEngine env g fuel
            { r with current := next, iterated := r.iterated + 1 }

/-- The repeating path of a `Part::Recurse` step: the inner path when one is
given, otherwise the tail of the surrounding path (lines 45–48 of
`get.rs`). -/
def innerRep (inner : Option (List Part)) (rest : List Part) : List Part :=
  match inner with
  | some ip => ip
  | Option.none => rest

/-- The `after` path of a `Part::Recurse` step (lines 45–48 of `get.rs`). -/
def innerAfter (inner : Option (List Part)) (rest : List Part) : List Part :=
  match inner with
  | some _ => rest
  | Option.none => []

/-- `Value::get` (`get.rs`, lines 29–594): the idiom path evaluator.  `fuel`
bounds the number of re-entries (each `stk.run(|stk| …get…)` suspension point
consumes one unit); every other construct is translated branch by branch from
the source.  The depth guard precedes dispatch; `Recurse`, `RepeatRecurse`
and `Doc` are handled independently of the current value; all remaining
heads dispatch on the current value's variant. -/
def get (env : Env) (fuel : Nat) (opt : Options) (doc : Option Cursor)
    (self : Value) (path : List Part) : Res Value :=
  match fuel with
  | 0 => .error .outOfFuel
  | fuel + 1 =>
    if path.length > env.maxDepth then .error (.err .computationDepthExceeded)
    else
      match path with
      | [] => .ok self
      | p :: rest =>
        match p with
        | .recurse mn mx inner instr =>
          let rep := innerRep inner rest
          let after0 := innerAfter inner rest
          let runTail := fun (v : Value) (after : List Part) =>
            match after with
            | [] => (.ok v : Res Value)
            | a :: as_ => get env fuel opt doc v (a :: as_)
          match splitByRepeatRecurse rep with
          | some (pre, post) =>
            match recurseEngine env (fun v pth => get env fuel opt doc v pth) fuel
                ⟨mn, mx, 0, self, pre, Option.none, instr⟩ with
            | .error f => .error f
            | .ok v => runTail v (post ++ after0)
          | Option.none =>
            match instr with
            | some ins =>
              match findRecursionPlan rep with
              | some _ => .error (.err .recursionInstructionPlanConflict)
              | Option.none =>
                match recurseEngine env (fun v pth => get env fuel opt doc v pth) fuel
                    ⟨mn, mx, 0, self, rep, Option.none, some ins⟩ with
                | .error f => .error f
                | .ok v => runTail v after0
            | Option.none =>
              match findRecursionPlan rep with
              | some (pre, pl, post) =>
                match recurseEngine env (fun v pth => get env fuel opt doc v pth) fuel
                    ⟨mn, mx, 0, self, pre, some pl, Option.none⟩ with
                | .error f => .error f
                | .ok v => runTail v (post ++ after0)
              | Option.none =>
                match recurseEngine env (fun v pth => get env fuel opt doc v pth) fuel
                    ⟨mn, mx, 0, self, rep, Option.none, Option.none⟩ with
                | .error f => .error f
                | .ok v => runTail v after0
        | .repeatRecurse => .error (.err .unsupportedRepeatRecurse)
        | .doc =>
          let v :=
            match doc with
            | some c =>
              match c.rid with
              | some (tb, idv) => Value.thing tb idv
              | Option.none => Value.none
            | Option.none => Value.none
          get env fuel opt doc v rest
        | _ =>
          match self with
          | .refs r =>
            match env.computeRefs r opt doc with
            | .error f => .error f
            | .ok v => get env fuel opt doc v path
          | .geometry g =>
            match p with
            | .field f =>
              if f = "type" then
                get env fuel opt doc (.strand (env.geoType g)) rest
              else if f = "coordinates" ∧ env.geoIsGeometry g then
                get env fuel opt doc (env.geoCoordinates g) rest
              else if f = "geometries" ∧ env.geoIsCollection g then
                get env fuel opt doc (env.geoCoordinates g) rest
              else .ok .none
            | .destructure _ =>
              get env fuel opt doc (.object (env.geoObject g)) path
            | .method name args =>
              match mapRes (fun a => env.computeExpr a opt doc) args with
              | .error f => .error f
              | .ok argv =>
                match env.invokeMethod name (.geometry g) argv opt doc with
                | .ok v => get env fuel opt doc v rest
                | .error e => .error (.err e)
            | .optional => get env fuel opt doc (.geometry g) rest
            | _ => .ok .none
          | .future e =>
            match env.computeFuture e (withFutures opt true) doc with
            | .error f => .error f
            | .ok val => get env fuel opt doc val path
          | .object o =>
            match p with
            | .field f =>
              if f = "id" ∧ rest.length ≠ 0 then
                match lookupObj o f with
                | some (.thing _ (.object io)) => get env fuel opt doc (.object io) rest
                | some (.thing _ (.array ia)) => get env fuel opt doc (.array ia) rest
                | some v => get env fuel opt doc v rest
                | Option.none => get env fuel opt doc .none rest
              else
                match lookupObj o f with
                | some v => get env fuel opt doc v rest
                | Option.none => get env fuel opt doc .none rest
            | .graph _ =>
              match objRid o with
              | some (tb, idv) => get env fuel opt doc (.thing tb idv) path
              | Option.none => get env fuel opt doc .none rest
            | .index i =>
              match lookupObj o (toString i) with
              | some v => get env fuel opt doc v rest
              | Option.none => get env fuel opt doc .none rest
            | .value x =>
              match catchReturn (env.computeExpr x opt doc) with
              | .error f => .error f
              | .ok (.strand s) =>
                match lookupObj o s with
                | some v => get env fuel opt doc v rest
                | Option.none => .ok .none
              | .ok (.thing tb idv) =>
                match lookupObj o (env.thingRaw tb idv) with
                | some v => get env fuel opt doc v rest
                | Option.none => .ok .none
              | .ok _ => get env fuel opt doc .none rest
            | .all => get env fuel opt doc (.array (objValues o)) rest
            | .destructure spec =>
              match destructureFields env ⟨Option.none, .object o⟩ spec with
              | .error f => .error f
              | .ok fields => get env fuel opt doc (.object fields) rest
            | .method name args =>
              match mapRes (fun a => env.computeExpr a opt doc) args with
              | .error f => .error f
              | .ok argv =>
                match objectMethod env opt doc o name argv with
                | .error f => .error f
                | .ok res => get env fuel opt doc res rest
            | .optional => get env fuel opt doc (.object o) rest
            | _ => .ok .none
          | .array xs =>
            match p with
            | .all =>
              match mapRes (fun x => get env fuel opt doc x rest) xs with
              | .error f => .error f
              | .ok ys => .ok (.array ys)
            | .flatten =>
              match mapRes (fun x => get env fuel opt doc x rest) xs with
              | .error f => .error f
              | .ok ys => .ok (.array ys)
            | .first =>
              match xs.head? with
              | some v => get env fuel opt doc v rest
              | Option.none => get env fuel opt doc .none rest
            | .last =>
              match xs.getLast? with
              | some v => get env fuel opt doc v rest
              | Option.none => get env fuel opt doc .none rest
            | .index i =>
              match xs[i]? with
              | some v => get env fuel opt doc v rest
              | Option.none => get env fuel opt doc .none rest
            | .whereCond w =>
              match whereKeep env opt w xs with
              | .error f => .error f
              | .ok kept => get env fuel opt doc (.array kept) rest
            | .value x =>
              match catchReturn (env.computeExpr x opt doc) with
              | .error f => .error f
              | .ok (.number n) =>
                match xs[n.toNat]? with
                | some v => get env fuel opt doc v rest
                | Option.none => .ok .none
              | .ok (.range r) =>
                let v :=
                  match env.rangeSlice r xs with
                  | some ys => Value.array ys
                  | Option.none => Value.none
                get env fuel opt doc v rest
              | .ok _ => get env fuel opt doc .none rest
            | .method name args =>
              match mapRes (fun a => env.computeExpr a opt doc) args with
              | .error f => .error f
              | .ok argv =>
                match env.invokeMethod name (.array xs) argv opt doc with
                | .ok v => get env fuel opt doc v rest
                | .error e => .error (.err e)
            | .optional => get env fuel opt doc (.array xs) rest
            | _ =>
              let len : Nat :=
                match rest with
                | .all :: _ => 2
                | _ => 1
              match mapRes (fun x => get env fuel opt doc x (path.take len)) xs with
              | .error f => .error f
              | .ok ys =>
                let mapped :=
                  match p, rest.head? with
                  | .graph _, some (.graph _) => flattenValue (.array ys)
                  | .graph _, some (.whereCond _) => flattenValue (.array ys)
                  | _, _ => Value.array ys
                get env fuel opt doc mapped (path.drop len)
          | .edges e =>
            match env.fetchEdges e opt with
            | .error f => .error f
            | .ok v =>
              match get env fuel opt Option.none v path with
              | .error f => .error f
              | .ok r => .ok (flattenValue r)
          | .thing tb idv =>
            match p with
            | .graph g =>
              match rest with
              | [] =>
                match env.fetchGraph g true tb idv opt with
                | .error f => .error f
                | .ok v => .ok v
              | nx :: rtail =>
                match env.fetchGraph g false tb idv opt with
                | .error f => .error f
                | .ok v =>
                  match get env fuel opt Option.none v (nx :: rtail) with
                  | .error f => .error f
                  | .ok res =>
                    .ok (match nx with
                      | .graph _ => flattenValue res
                      | .whereCond _ => flattenValue res
                      | _ => res)
            | .method name args =>
              match mapRes (fun a => env.computeExpr a opt doc) args with
              | .error f => .error f
              | .ok argv =>
                match env.invokeMethod name (.thing tb idv) argv opt doc with
                | .ok v => get env fuel opt doc v rest
                | .error e => .error (.err e)
            | .optional => get env fuel opt doc (.thing tb idv) rest
            | _ =>
              match env.fetchRecord tb idv opt with
              | .error f => .error f
              | .ok v =>
                let nxt :=
                  match p with
                  | .all => rest
                  | _ => path
                get env fuel opt Option.none v nxt
          | v =>
            match p with
            | .optional =>
              match v with
              | .none => .ok .none
              | w => get env fuel opt doc w rest
            | .flatten => get env fuel opt Option.none v rest
            | .method name args =>
              match mapRes (fun a => env.computeExpr a opt doc) args with
              | .error f => .error f
              | .ok argv =>
                match env.invokeMethod name v argv opt doc with
                | .ok r => get env fuel opt doc r rest
                | .error e => .error (.err e)
            | _ => get env fuel opt doc .none (nextMethod path)

/-! ## The `Bi` index key (`crates/core/src/key/index/bi.rs`)

`Bi` stores doc keys for doc ids.  The struct layout is taken field by field
from the source; the byte-level serialization comes from `impl_key!`, whose
implementation is not under `src/`.  Modelled from the spec: the encoding is
reconstructed from the expected bytes of the unit test in `bi.rs`
(`/*testns\0*testdb\0*testtb\0+testix\0!bi\0\0\0\0\0\0\0\x07`): a `u8` field
is one raw byte, a `&str` field is its bytes followed by a `0x00` terminator,
and the `DocId` (`u64`) is eight big-endian bytes.  Strings are byte lists
(`List Nat`), NUL-free in well-formed keys. -/

/-- The `Bi` key struct: marker bytes `__`, `_a`, …, `_g` are `m0`, …, `m7`. -/
structure Bi where
  m0 : Nat
  m1 : Nat
  ns : List Nat
  m2 : Nat
  db : List Nat
  m3 : Nat
  tb : List Nat
  m4 : Nat
  ix : List Nat
  m5 : Nat
  m6 : Nat
  m7 : Nat
  id : Nat
deriving DecidableEq

/-- `Bi::new`: fills the marker bytes `'/'`, `'*'`, `'*'`, `'*'`, `'+'`,
`'!'`, `'b'`, `'i'` around the user data. -/
def Bi.new (ns db tb ix : List Nat) (id : Nat) : Bi :=
  ⟨47, 42, ns, 42, db, 42, tb, 43, ix, 33, 98, 105, id⟩

/-- Big-endian 8-byte encoding of a `u64`. -/
def encU64 (n : Nat) : List Nat :=
  [n / 72057594037927936 % 256, n / 281474976710656 % 256,
   n / 1099511627776 % 256, n / 4294967296 % 256,
   n / 16777216 % 256, n / 65536 % 256, n / 256 % 256, n % 256]

/-- NUL-terminated string encoding. -/
def encStr (s : List Nat) : List Nat := s ++ [0]

/-- `Bi::encode` (via `impl_key!`): serialize the fields in declaration
order. -/
def Bi.encode (b : Bi) : List Nat :=
  [b.m0, b.m1] ++ encStr b.ns ++ [b.m2] ++ encStr b.db ++ [b.m3] ++ encStr b.tb
    ++ [b.m4] ++ encStr b.ix ++ [b.m5, b.m6, b.m7] ++ encU64 b.id

/-- Read one byte. -/
def takeByte : List Nat → Option (Nat × List Nat)
  | [] => Option.none
  | b :: r => some (b, r)

/-- Read a NUL-terminated string. -/
def takeStr : List Nat → Option (List Nat × List Nat)
  | [] => Option.none
  | 0 :: r => some ([], r)
  | b :: r =>
    match takeStr r with
    | some (s, r2) => some (b :: s, r2)
    | Option.none => Option.none

/-- Read a big-endian `u64` (eight bytes). -/
def takeU64 : List Nat → Option (Nat × List Nat)
  | b7 :: b6 :: b5 :: b4 :: b3 :: b2 :: b1 :: b0 :: r =>
    some (((((((b7 * 256 + b6) * 256 + b5) * 256 + b4) * 256 + b3) * 256 + b2)
      * 256 + b1) * 256 + b0, r)
  | _ => Option.none

/-- `Bi::decode` (via `impl_key!`): parse the fields in declaration order and
require the input to be exhausted. -/
def Bi.decode (l : List Nat) : Option Bi :=
  match takeByte l with
  | Option.none => Option.none
  | some (m0, l) =>
  match takeByte l with
  | Option.none => Option.none
  | some (m1, l) =>
  match takeStr l with
  | Option.none => Option.none
  | some (ns, l) =>
  match takeByte l with
  | Option.none => Option.none
  | some (m2, l) =>
  match takeStr l with
  | Option.none => Option.none
  | some (db, l) =>
  match takeByte l with
  | Option.none => Option.none
  | some (m3, l) =>
  match takeStr l with
  | Option.none => Option.none
  | some (tb, l) =>
  match takeByte l with
  | Option.none => Option.none
  | some (m4, l) =>
  match takeStr l with
  | Option.none => Option.none
  | some (ix, l) =>
  match takeByte l with
  | Option.none => Option.none
  | some (m5, l) =>
  match takeByte l with
  | Option.none => Option.none
  | some (m6, l) =>
  match takeByte l with
  | Option.none => Option.none
  | some (m7, l) =>
  match takeU64 l with
  | Option.none => Option.none
  | some (idv, l) =>
  match l with
  | [] => some ⟨m0, m1, ns, m2, db, m3, tb, m4, ix, m5, m6, m7, idv⟩
  | _ => Option.none

/-! ## Concrete instantiations used by witnesses and counterexamples -/

/-- A benign collaborator environment: every collaborator returns `None` (or
fails, for the method dispatcher), the depth budget is 100. -/
def baseEnv : Env where
  maxDepth := 100
  computeExpr := fun _ _ _ => .ok .none
  computeFuture := fun _ _ _ => .ok .none
  computeRefs := fun _ _ _ => .ok .none
  invokeMethod := fun _ _ _ _ _ => .error (.other 0)
  callFunction := fun _ _ _ _ => .ok .none
  computeIdiom := fun _ _ => .ok .none
  fetchEdges := fun _ _ => .ok .none
  fetchRecord := fun _ _ _ => .ok .none
  fetchGraph := fun _ _ _ _ _ => .ok .none
  rangeSlice := fun _ _ => Option.none
  thingRaw := fun tb _ => tb
  geoType := fun _ => "Point"
  geoIsGeometry := fun _ => true
  geoIsCollection := fun _ => false
  geoCoordinates := fun _ => .none
  geoObject := fun _ => []
  truthy := fun v => match v with | .bool b => b | _ => false
  reduceStep := fun _ _ _ step _ => step

/-- Default options (futures disabled). -/
def opt0 : Options := ⟨false⟩

/-- Environment whose future evaluator yields `true`. -/
def envFuture : Env := { baseEnv with computeFuture := fun _ _ _ => .ok (.bool true) }

/-- Environment whose expression evaluator yields the string `"k"` and whose
method dispatcher yields `true` for every invocation. -/
def envLookup : Env :=
  { baseEnv with
    computeExpr := fun _ _ _ => .ok (.strand "k"),
    invokeMethod := fun _ _ _ _ _ => .ok (.bool true) }

/-- Environment with a depth budget of 2. -/
def envDepth : Env := { baseEnv with maxDepth := 2 }

/-- Environment whose predicate evaluator compares the element's `age` field
against the predicate handle. -/
def envWhere : Env :=
  { baseEnv with
    computeExpr := fun w _ c =>
      match c with
      | some cur =>
        match cur.doc with
        | .object o =>
          match lookupObj o "age" with
          | some (.number n) => .ok (.bool (w < n.toNat))
          | _ => .ok (.bool false)
        | _ => .ok (.bool false)
      | _ => .ok (.bool false) }

/-- A repeating path bearing a discoverable recursion plan (a destructure
with a nested repeat-recurse) and no root-level repeat-recurse. -/
def repPlan : List Part := [.destructure [("x", [.repeatRecurse])]]

/-! ## Claims -/

/-- C1: for every value `v` — every variant, including `Thing`, `Edges` and
`Future` — evaluating `get` with an empty path returns (a clone of) `v`
unchanged, under every environment, options, and cursor document. -/
theorem c1_empty_path_identity (env : Env) (fuel : Nat) (opt : Options)
    (doc : Option Cursor) (v : Value) :
    get env (fuel + 1) opt doc v [] = .ok v := by
  simp [get]

/-- C2: for every value `v` and every path longer than the configured
`MAX_COMPUTATION_DEPTH`, `get` fails with `ComputationDepthExceeded`; the
guard precedes every dispatch (including the value-independent `Recurse`,
`RepeatRecurse` and `Doc` arms), and since each re-entry runs the same
function the check recurs at every re-entry. -/
theorem c2_depth_guard (env : Env) (fuel : Nat) (opt : Options)
    (doc : Option Cursor) (v : Value) (path : List Part)
    (h : env.maxDepth < path.length) :
    get env (fuel + 1) opt doc v path = .error (.err .computationDepthExceeded) := by
  simp [get, h]

/-- Witness for C2 at a concrete input: a depth budget of 2 and a three-step
path on `None`. -/
theorem c2_depth_guard_witness :
    envDepth.maxDepth < ([Part.field "a", Part.field "b", Part.field "c"] : List Part).length
    ∧ get envDepth 1 opt0 Option.none Value.none
        [Part.field "a", Part.field "b", Part.field "c"]
      = .error (.err .computationDepthExceeded) :=
  ⟨by decide, c2_depth_guard envDepth 0 opt0 Option.none Value.none _ (by decide)⟩

/-- The variants on which the `Part::Optional` arm acts directly: everything
except `Future`, `Edges` and `Refs`, which `get.rs` first materializes
(computing the future, fetching the edges, computing the refs) before any
part — including `Optional` — is interpreted. -/
def optionalTransparent : Value → Bool
  | .future _ => false
  | .edges _ => false
  | .refs _ => false
  | _ => true

/-- C3 (as stated) is false: on a `Future`, a leading `Optional` is not a
no-op — `get(future e, [Optional])` first computes the future (here to
`true`) and applies `Optional` to the result, whereas `get(future e, []) =
future e`. -/
theorem c3_optional_counterexample :
    get envFuture 3 opt0 Option.none (.future 0) [.optional] = .ok (.bool true)
    ∧ get envFuture 3 opt0 Option.none (.future 0) [] = .ok (.future 0)
    ∧ (Except.ok (Value.bool true) : Res Value) ≠ .ok (.future 0) :=
  ⟨rfl, rfl, fun h => Value.noConfusion (Except.ok.inj h)⟩

/-- C3 amended: for every value `v` that is not a `Future`, `Edges` or `Refs`
(those are materialized first, so `Optional` applies to the materialized
value), and provided the path respects the depth budget,
`get(v, [Optional, ...rest])` is `None` when `v` is `None` and
`get(v, rest)` otherwise. -/
theorem c3_optional_noop (env : Env) (fuel : Nat) (opt : Options)
    (doc : Option Cursor) (v : Value) (rest : List Part)
    (hv : optionalTransparent v = true)
    (hd : rest.length + 1 ≤ env.maxDepth) :
    get env (fuel + 1) opt doc v (.optional :: rest)
      = match v with
        | .none => .ok .none
        | _ => get env fuel opt doc v rest := by
  have hg : ¬ ((Part.optional :: rest).length > env.maxDepth) := by
    simp only [List.length_cons]
    omega
  cases v <;> simp only [optionalTransparent] at hv <;> first
    | exact Bool.noConfusion hv
    | simp_all [get]

/-- Witness for C3 at a concrete input: `Optional` on `true` descends into
the tail. -/
theorem c3_optional_noop_witness :
    optionalTransparent (Value.bool true) = true
    ∧ ([] : List Part).length + 1 ≤ baseEnv.maxDepth
    ∧ get baseEnv 2 opt0 Option.none (.bool true) [.optional]
        = get baseEnv 1 opt0 Option.none (.bool true) [] :=
  ⟨rfl, by decide,
    c3_optional_noop baseEnv 1 opt0 Option.none (.bool true) [] rfl (by decide)⟩

/-- C4 (as stated) is false: on an object, a computed `Value(expr)` lookup
that misses returns `None` immediately and discards the remaining path,
instead of descending through it on `None` — here the tail holds a method
call that maps `None` to `true`, so descending would yield `true`. -/
theorem c4_counterexample :
    get envLookup 5 opt0 Option.none (.object []) [.value 0, .method "m" []] = .ok .none
    ∧ get envLookup 5 opt0 Option.none Value.none [.method "m" []] = .ok (.bool true)
    ∧ (Except.ok Value.none : Res Value) ≠ .ok (.bool true) :=
  ⟨rfl, rfl, fun h => Value.noConfusion (Except.ok.inj h)⟩

/-- C4 amended: absent fields and out-of-range indices are never errors.  For
`Field(name)` and `Index(i)` accesses (on objects and arrays) the evaluator
descends through the remaining path on `None`; for computed `Value(expr)`
lookups that miss (a string or record-id key absent from an object, a
numeric index out of range on an array) the evaluator instead returns `None`
immediately, discarding the remaining path. -/
theorem c4_absent_not_error (env : Env) (fuel : Nat) (opt : Options) (doc : Option Cursor) :
    (∀ o f rest, lookupObj o f = Option.none → rest.length + 1 ≤ env.maxDepth →
      get env (fuel + 1) opt doc (.object o) (.field f :: rest)
        = get env fuel opt doc .none rest)
    ∧ (∀ o i rest, lookupObj o (toString i) = Option.none →
      rest.length + 1 ≤ env.maxDepth →
      get env (fuel + 1) opt doc (.object o) (.index i :: rest)
        = get env fuel opt doc .none rest)
    ∧ (∀ xs i rest, xs.length ≤ i → rest.length + 1 ≤ env.maxDepth →
      get env (fuel + 1) opt doc (.array xs) (.index i :: rest)
        = get env fuel opt doc .none rest)
    ∧ (∀ o x s rest, catchReturn (env.computeExpr x opt doc) = .ok (.strand s) →
      lookupObj o s = Option.none → rest.length + 1 ≤ env.maxDepth →
      get env (fuel + 1) opt doc (.object o) (.value x :: rest) = .ok .none)
    ∧ (∀ xs x n rest, catchReturn (env.computeExpr x opt doc) = .ok (.number n) →
      xs.length ≤ n.toNat → rest.length + 1 ≤ env.maxDepth →
      get env (fuel + 1) opt doc (.array xs) (.value x :: rest) = .ok .none) := by
  refine ⟨?_, ?_, ?_, ?_, ?_⟩
  · intro o f rest h1 hd
    have hg : ¬ (env.maxDepth < rest.length + 1) := by omega
    by_cases hf : f = "id" ∧ rest.length ≠ 0
    · rcases hf with ⟨rfl, hr⟩
      simp [get, hg, h1, hr]
    · simp [get, hg, h1, hf]
  · intro o i rest h1 hd
    have hg : ¬ (env.maxDepth < rest.length + 1) := by omega
    simp [get, hg, h1]
  · intro xs i rest h1 hd
    have hg : ¬ (env.maxDepth < rest.length + 1) := by omega
    simp [get, hg, List.getElem?_eq_none h1]
  · intro o x s rest h1 h2 hd
    have hg : ¬ (env.maxDepth < rest.length + 1) := by omega
    simp [get, hg, h1, h2]
  · intro xs x n rest h1 h2 hd
    have hg : ¬ (env.maxDepth < rest.length + 1) := by omega
    simp [get, hg, h1, List.getElem?_eq_none h2]

/-- Witness for C4 at a concrete input: a missing field on the empty object
descends as `None`. -/
theorem c4_absent_not_error_witness :
    lookupObj [] "f" = Option.none
    ∧ get baseEnv 2 opt0 Option.none (.object []) [.field "f"]
        = get baseEnv 1 opt0 Option.none Value.none [] :=
  ⟨rfl, (c4_absent_not_error baseEnv 1 opt0 Option.none).1 [] "f" [] rfl (by decide)⟩

/-- The path heads whose interpretation dispatches on the current value:
everything except `Recurse`, `RepeatRecurse` and `Doc`, which `get.rs`
handles before looking at the value. -/
def valueDispatch : Part → Bool
  | .recurse _ _ _ _ => false
  | .repeatRecurse => false
  | .doc => false
  | _ => true

/-- C5 (as stated) is false: for a path whose head is a `Recurse` step, `get`
on a future does not equal `get` on the future's computed value — the
recursion engine iterates on the un-evaluated future itself.  Here the
future computes to `true`, yet `get(future 0, [Recurse 1..1]) = future 0`
while `get(true, [Recurse 1..1]) = true`. -/
theorem c5_future_counterexample :
    envFuture.computeFuture 0 (withFutures opt0 true) Option.none = .ok (.bool true)
    ∧ get envFuture 9 opt0 Option.none (.future 0)
        [.recurse 1 (some 1) Option.none Option.none] = .ok (.future 0)
    ∧ get envFuture 9 opt0 Option.none (.bool true)
        [.recurse 1 (some 1) Option.none Option.none] = .ok (.bool true)
    ∧ (Except.ok (Value.future 0) : Res Value) ≠ .ok (.bool true) :=
  ⟨rfl, rfl, rfl, fun h => Value.noConfusion (Except.ok.inj h)⟩

/-- C5 amended: `get(future e, [], …)` returns the future unchanged; and for
every non-empty path within the depth budget whose head is a
value-dispatched step (not `Recurse`, `RepeatRecurse` or `Doc`), if the
future's expression computes (with futures enabled) to `val` then
`get(future e, P, …)` proceeds exactly as `get(val, P, …)` with the same
path, under the original options. -/
theorem c5_future_compute (env : Env) (fuel : Nat) (opt : Options)
    (doc : Option Cursor) (e : Nat) :
    (get env (fuel + 1) opt doc (.future e) [] = .ok (.future e))
    ∧ (∀ p rest val, valueDispatch p = true →
        (p :: rest : List Part).length ≤ env.maxDepth →
        env.computeFuture e (withFutures opt true) doc = .ok val →
        get env (fuel + 1) opt doc (.future e) (p :: rest)
          = get env fuel opt doc val (p :: rest)) := by
  constructor
  · simp [get]
  · intro p rest val hp hd hc
    simp only [List.length_cons] at hd
    have hg : ¬ (env.maxDepth < rest.length + 1) := by omega
    cases p <;> simp only [valueDispatch] at hp <;> first
      | exact Bool.noConfusion hp
      | simp [get, hg, hc]

/-- Witness for C5 at a concrete input: a field access behind a future is
served by the computed value. -/
theorem c5_future_compute_witness :
    valueDispatch (Part.field "x") = true
    ∧ ([Part.field "x"] : List Part).length ≤ envFuture.maxDepth
    ∧ envFuture.computeFuture 0 (withFutures opt0 true) Option.none = .ok (.bool true)
    ∧ get envFuture 3 opt0 Option.none (.future 0) [.field "x"]
        = get envFuture 2 opt0 Option.none (.bool true) [.field "x"] :=
  ⟨rfl, by decide, rfl,
    (c5_future_compute envFuture 2 opt0 Option.none 0).2 (.field "x") [] (.bool true)
      rfl (by decide) rfl⟩

/-- A successful `mapRes` relates input and output elementwise, in order. -/
theorem mapRes_ok_forall2 {α β : Type} (f : α → Res β) :
    ∀ xs ys, mapRes f xs = .ok ys → List.Forall₂ (fun x y => f x = .ok y) xs ys := by
  intro xs
  induction xs with
  | nil =>
    intro ys h
    simp only [mapRes] at h
    cases h
    exact .nil
  | cons x xs ih =>
    intro ys h
    simp only [mapRes] at h
    cases hfx : f x with
    | error g => rw [hfx] at h; cases h
    | ok y =>
      rw [hfx] at h
      cases hm : mapRes f xs with
      | error g => rw [hm] at h; cases h
      | ok zs =>
        rw [hm] at h
        cases h
        exact .cons hfx (ih zs hm)

/-- C6: on an array, an `All` step maps the remaining path over every element
— the result is exactly the elementwise results, and whenever it is an array
`ys`, `ys` is related to the elements `xs` pointwise in order (position `i`
of the result comes from element `xᵢ`; errors short-circuit). -/
theorem c6_array_all_maps (env : Env) (fuel : Nat) (opt : Options)
    (doc : Option Cursor) (xs : List Value) (rest : List Part)
    (hd : rest.length + 1 ≤ env.maxDepth) :
    get env (fuel + 1) opt doc (.array xs) (.all :: rest)
      = (mapRes (fun x => get env fuel opt doc x rest) xs).map Value.array
    ∧ ∀ ys, get env (fuel + 1) opt doc (.array xs) (.all :: rest) = .ok (.array ys) →
        List.Forall₂ (fun x y => get env fuel opt doc x rest = .ok y) xs ys := by
  have hg : ¬ (env.maxDepth < rest.length + 1) := by omega
  have h1 : get env (fuel + 1) opt doc (.array xs) (.all :: rest)
      = (mapRes (fun x => get env fuel opt doc x rest) xs).map Value.array := by
    cases hm : mapRes (fun x => get env fuel opt doc x rest) xs <;>
      simp [get, hg, hm, Except.map]
  refine ⟨h1, ?_⟩
  intro ys h
  rw [h1] at h
  cases hm : mapRes (fun x => get env fuel opt doc x rest) xs with
  | error g => rw [hm] at h; simp [Except.map] at h
  | ok zs =>
    rw [hm] at h
    simp only [Except.map] at h
    cases h
    exact mapRes_ok_forall2 _ xs ys hm

/-- Witness for C6 at a concrete input: `All` over a two-element array. -/
theorem c6_array_all_maps_witness :
    ([] : List Part).length + 1 ≤ baseEnv.maxDepth
    ∧ get baseEnv 2 opt0 Option.none (.array [.bool true, .null]) [.all]
      = (mapRes (fun x => get baseEnv 1 opt0 Option.none x [])
          [Value.bool true, Value.null]).map Value.array :=
  ⟨by decide,
    (c6_array_all_maps baseEnv 1 opt0 Option.none [.bool true, .null] [] (by decide)).1⟩

/-- Whether an element passes a `Where` predicate: its condition, computed
with the element as cursor document and `catch_return` applied, is truthy
(an error never passes; under the hypotheses below it does not occur). -/
def wherePass (env : Env) (opt : Options) (w : Nat) (x : Value) : Bool :=
  match catchReturn (env.computeExpr w opt (some ⟨Option.none, x⟩)) with
  | .ok c => env.truthy c
  | .error _ => false

/-- When every predicate evaluation succeeds, the sequential `Where` loop
returns exactly the passing elements, in their original order. -/
theorem whereKeep_ok (env : Env) (opt : Options) (w : Nat) :
    ∀ xs : List Value,
    (∀ x ∈ xs, ∃ c, catchReturn (env.computeExpr w opt (some ⟨Option.none, x⟩)) = .ok c) →
    whereKeep env opt w xs = .ok (xs.filter (wherePass env opt w)) := by
  intro xs
  induction xs with
  | nil => intro h; simp [whereKeep]
  | cons x xs ih =>
    intro h
    obtain ⟨c, hc⟩ := h x (List.mem_cons_self x xs)
    have hrec := ih (fun y hy => h y (List.mem_cons_of_mem x hy))
    have hp : wherePass env opt w x = env.truthy c := by simp [wherePass, hc]
    simp only [whereKeep, hc, hrec, List.filter_cons, hp]

/-- C7: on an array, `Where(p)` keeps exactly the elements whose predicate
(computed sequentially, each with the element as cursor document) is truthy,
in their original encounter order, and continues with the path tail on the
filtered array. -/
theorem c7_where_filters (env : Env) (fuel : Nat) (opt : Options)
    (doc : Option Cursor) (w : Nat) (xs : List Value) (rest : List Part)
    (hd : rest.length + 1 ≤ env.maxDepth)
    (hp : ∀ x ∈ xs, ∃ c, catchReturn (env.computeExpr w opt (some ⟨Option.none, x⟩)) = .ok c) :
    get env (fuel + 1) opt doc (.array xs) (.whereCond w :: rest)
      = get env fuel opt doc (.array (xs.filter (wherePass env opt w))) rest := by
  have hg : ¬ (env.maxDepth < rest.length + 1) := by omega
  simp [get, hg, whereKeep_ok env opt w xs hp]

/-- Witness for C7 at a concrete input: `[WHERE age > 35]` keeps only the
second element. -/
theorem c7_where_filters_witness :
    get envWhere 3 opt0 Option.none
        (.array [.object [("age", .number 34)], .object [("age", .number 36)]])
        [.whereCond 35]
      = get envWhere 2 opt0 Option.none
          (.array (List.filter (wherePass envWhere opt0 35)
            [.object [("age", .number 34)], .object [("age", .number 36)]])) []
    ∧ List.filter (wherePass envWhere opt0 35)
        [.object [("age", .number 34)], .object [("age", .number 36)]]
      = [.object [("age", .number 36)]] := by
  constructor
  · exact c7_where_filters envWhere 2 opt0 Option.none 35 _ [] (by decide) (by
      intro x hx
      simp only [List.mem_cons, List.not_mem_nil, or_false] at hx
      rcases hx with rfl | rfl <;> exact ⟨_, rfl⟩)
  · rfl

/-- C8 (as stated) is false: a `RepeatRecurse`-headed path that exceeds the
depth budget fails with `ComputationDepthExceeded`, not
`UnsupportedRepeatRecurse` — the depth guard fires before the
`RepeatRecurse` arm. -/
theorem c8_counterexample :
    get envDepth 1 opt0 Option.none (.bool true)
        [.repeatRecurse, .repeatRecurse, .repeatRecurse]
      = .error (.err .computationDepthExceeded)
    ∧ (Except.error (Flow.err .computationDepthExceeded) : Res Value)
      ≠ .error (.err .unsupportedRepeatRecurse) :=
  ⟨rfl, fun h => GError.noConfusion (Flow.err.inj (Except.error.inj h))⟩

/-- C8 amended: for every value `v` — of any variant — and every path headed
by `RepeatRecurse` that respects the depth budget, `get` fails with
`UnsupportedRepeatRecurse` (paths beyond the budget fail with
`ComputationDepthExceeded` first). -/
theorem c8_repeat_recurse_unsupported (env : Env) (fuel : Nat) (opt : Options)
    (doc : Option Cursor) (v : Value) (rest : List Part)
    (hd : rest.length + 1 ≤ env.maxDepth) :
    get env (fuel + 1) opt doc v (.repeatRecurse :: rest)
      = .error (.err .unsupportedRepeatRecurse) := by
  have hg : ¬ (env.maxDepth < rest.length + 1) := by omega
  simp [get, hg]

/-- Witness for C8 at a concrete input: a lone `RepeatRecurse` on a record
id. -/
theorem c8_repeat_recurse_unsupported_witness :
    ([] : List Part).length + 1 ≤ baseEnv.maxDepth
    ∧ get baseEnv 1 opt0 Option.none (.thing "person" (.strand "tobie")) [.repeatRecurse]
      = .error (.err .unsupportedRepeatRecurse) :=
  ⟨by decide,
    c8_repeat_recurse_unsupported baseEnv 0 opt0 Option.none
      (.thing "person" (.strand "tobie")) [] (by decide)⟩

/-- C9 (as stated) is false: a `Recurse` step with an instruction whose
repeating path bears a discoverable recursion plan does not always fail with
`RecursionInstructionPlanConflict` — when the whole path exceeds the depth
budget it fails with `ComputationDepthExceeded` before the conflict check. -/
theorem c9_counterexample :
    findRecursionPlan repPlan
      = some ([], .destructure [("x", [.repeatRecurse])], [])
    ∧ splitByRepeatRecurse repPlan = Option.none
    ∧ get envDepth 1 opt0 Option.none (.bool true)
        [.recurse 1 (some 1) (some repPlan) (some 0), .field "a", .field "b", .field "c"]
      = .error (.err .computationDepthExceeded)
    ∧ (Except.error (Flow.err .computationDepthExceeded) : Res Value)
      ≠ .error (.err .recursionInstructionPlanConflict) :=
  ⟨rfl, rfl, rfl, fun h => GError.noConfusion (Flow.err.inj (Except.error.inj h))⟩

/-- C9 amended: for a `Recurse` step carrying an instruction, whenever the
path respects the depth budget and the repeating path (the inner path if
given, else the tail) has no root-level `RepeatRecurse` to split off but
does contain a discoverable recursion plan, `get` fails with
`RecursionInstructionPlanConflict`, regardless of the current value. -/
theorem c9_instruction_plan_conflict (env : Env) (fuel : Nat) (opt : Options)
    (doc : Option Cursor) (v : Value) (mn : Nat) (mx : Option Nat)
    (inner : Option (List Part)) (ins : Nat) (rest : List Part)
    (hd : rest.length + 1 ≤ env.maxDepth)
    (hs : splitByRepeatRecurse (innerRep inner rest) = Option.none)
    (hf : findRecursionPlan (innerRep inner rest) ≠ Option.none) :
    get env (fuel + 1) opt doc v (.recurse mn mx inner (some ins) :: rest)
      = .error (.err .recursionInstructionPlanConflict) := by
  have hg : ¬ (env.maxDepth < rest.length + 1) := by omega
  cases hfp : findRecursionPlan (innerRep inner rest) with
  | none => exact absurd hfp hf
  | some pl => simp [get, hg, hs, hfp]

/-- Witness for C9 at a concrete input: an instruction together with a
destructure-nested repeat-recurse. -/
theorem c9_instruction_plan_conflict_witness :
    ([] : List Part).length + 1 ≤ baseEnv.maxDepth
    ∧ splitByRepeatRecurse (innerRep (some repPlan) []) = Option.none
    ∧ findRecursionPlan (innerRep (some repPlan) []) ≠ Option.none
    ∧ get baseEnv 1 opt0 Option.none (.bool true)
        [.recurse 1 (some 1) (some repPlan) (some 0)]
      = .error (.err .recursionInstructionPlanConflict) :=
  ⟨by decide, rfl, fun h => Option.noConfusion h,
    c9_instruction_plan_conflict baseEnv 0 opt0 Option.none (.bool true) 1 (some 1)
      (some repPlan) 0 [] (by decide) rfl (fun h => Option.noConfusion h)⟩

/-- Parsing a NUL-terminated string recovers a NUL-free byte string. -/
theorem takeStr_encStr (s : List Nat) (r : List Nat) (h : ∀ b ∈ s, b ≠ 0) :
    takeStr (s ++ 0 :: r) = some (s, r) := by
  induction s with
  | nil => simp [takeStr]
  | cons b s ih =>
    cases b with
    | zero => exact absurd rfl (h 0 (by simp))
    | succ n =>
      have ih2 := ih (fun x hx => h x (by simp [hx]))
      simp [takeStr, ih2]

/-- Parsing eight big-endian bytes recovers a `u64`. -/
theorem takeU64_encU64 (n : Nat) (r : List Nat) (h : n < 18446744073709551616) :
    takeU64 (encU64 n ++ r) = some (n, r) := by
  simp only [encU64, takeU64, List.cons_append, List.nil_append, Option.some.injEq,
    Prod.mk.injEq, and_true]
  omega

/-- Sanity check of the serialization model against the unit test of `bi.rs`:
`Bi::new("testns", "testdb", "testtb", "testix", 7)` encodes to
`/*testns\0*testdb\0*testtb\0+testix\0!bi\0\0\0\0\0\0\0\x07`. -/
theorem bi_encode_test_vector :
    Bi.encode (Bi.new [116, 101, 115, 116, 110, 115] [116, 101, 115, 116, 100, 98]
        [116, 101, 115, 116, 116, 98] [116, 101, 115, 116, 105, 120] 7)
      = [47, 42, 116, 101, 115, 116, 110, 115, 0, 42, 116, 101, 115, 116, 100, 98, 0,
         42, 116, 101, 115, 116, 116, 98, 0, 43, 116, 101, 115, 116, 105, 120, 0, 33,
         98, 105, 0, 0, 0, 0, 0, 0, 0, 7] := rfl

/-- C10: for all NUL-free names `ns`, `db`, `tb`, `ix` and every `DocId`,
decoding the encoding of `Bi::new(ns, db, tb, ix, id)` yields the original
key (decode is a left inverse of encode on keys built by `Bi::new`), and the
encoded key carries the fixed marker bytes `'/'`, `'*'`, `'*'`, `'*'`, `'+'`,
`'!'`, `'b'`, `'i'` in their structural positions. -/
theorem c10_bi_roundtrip (ns db tb ix : List Nat) (id : Nat)
    (hns : ∀ b ∈ ns, b ≠ 0) (hdb : ∀ b ∈ db, b ≠ 0)
    (htb : ∀ b ∈ tb, b ≠ 0) (hix : ∀ b ∈ ix, b ≠ 0)
    (hid : id < 18446744073709551616) :
    Bi.decode (Bi.encode (Bi.new ns db tb ix id)) = some (Bi.new ns db tb ix id)
    ∧ Bi.encode (Bi.new ns db tb ix id)
      = [47, 42] ++ ns ++ [0, 42] ++ db ++ [0, 42] ++ tb ++ [0, 43] ++ ix
        ++ [0, 33, 98, 105] ++ encU64 id := by
  have hu : takeU64 (encU64 id) = some (id, []) := by
    have h8 := takeU64_encU64 id [] hid
    simpa using h8
  constructor
  · simp only [Bi.encode, Bi.new, encStr, List.append_assoc, List.cons_append,
      List.nil_append]
    simp only [Bi.decode, takeByte,
      takeStr_encStr _ _ hns, takeStr_encStr _ _ hdb, takeStr_encStr _ _ htb,
      takeStr_encStr _ _ hix, hu]
  · simp [Bi.encode, Bi.new, encStr]

/-- Witness for C10 at the unit test's input: `("testns", "testdb", "testtb",
"testix", 7)` round-trips. -/
theorem c10_bi_roundtrip_witness :
    Bi.decode (Bi.encode (Bi.new [116, 101, 115, 116, 110, 115]
        [116, 101, 115, 116, 100, 98] [116, 101, 115, 116, 116, 98]
        [116, 101, 115, 116, 105, 120] 7))
      = some (Bi.new [116, 101, 115, 116, 110, 115] [116, 101, 115, 116, 100, 98]
          [116, 101, 115, 116, 116, 98] [116, 101, 115, 116, 105, 120] 7) :=
  (c10_bi_roundtrip [116, 101, 115, 116, 110, 115] [116, 101, 115, 116, 100, 98]
    [116, 101, 115, 116, 116, 98] [116, 101, 115, 116, 105, 120] 7
    (by decide) (by decide) (by decide) (by decide) (by decide)).1

end Surreal
